import Mathlib

/-!
Verification of the huskki telemetry pipeline: the CRC-8 engine, the
resynchronising binary frame decoder, the sensor interpreter and the
event hub, embedded shallowly from the Go sources (arduino.go, main.go,
hub package).  Bytes are modelled as natural numbers below 256; byte
streams are lists of such numbers; Go byte arithmetic wraps modulo 256.
-/

set_option maxHeartbeats 1000000
set_option maxRecDepth 100000

/-- One round of the loop body inside crc8Update (arduino.go lines 195-201,
main.go lines 496-502): shift the byte left one bit (wrapping as Go byte
arithmetic does) and XOR in the polynomial 0x07 when the most significant
bit was set before the shift. -/
def crc8Round (crc : Nat) : Nat :=
  if crc &&& 0x80 ≠ 0 then ((crc <<< 1) % 256) ^^^ 0x07 else (crc <<< 1) % 256

/-- The eight-iteration for-loop of crc8Update, applied left to right. -/
def crc8Rounds : Nat → Nat → Nat
  | 0, crc => crc
  | n + 1, crc => crc8Rounds n (crc8Round crc)

/-- crc8Update from arduino.go / main.go: XOR the input byte into the
accumulator, then run the eight shift-and-reduce rounds. -/
def crc8Update (crc b : Nat) : Nat :=
  crc8Rounds 8 (crc ^^^ b)

/-- crc8UpdateBuf from arduino.go / main.go: fold crc8Update over a byte
sequence left to right. -/
def crc8UpdateBuf (crc : Nat) (p : List Nat) : Nat :=
  p.foldl crc8Update crc

/-- Frame from arduino.go: one validated record of the Arduino stream, with
the little-endian millis field, the big-endian DID and the payload bytes. -/
structure Frame where
  millis : Nat
  did : Nat
  data : List Nat
deriving DecidableEq, Repr

/-- Expected CRC of a frame, computed over the seven header bytes
(millis, DID hi, DID lo, length) followed by the payload, exactly the
sequence of crc8Update / crc8UpdateBuf calls of readOneFrame
(arduino.go lines 168-172) and readBinary (main.go lines 461-465). -/
def frameCrc (hdr data : List Nat) : Nat :=
  crc8UpdateBuf
    (crc8Update (crc8Update (crc8Update (crc8UpdateBuf 0x00 (hdr.take 4))
      (hdr.getD 4 0)) (hdr.getD 5 0)) (hdr.getD 6 0)) data

/-- The resynchronisation scan shared by readOneFrame (arduino.go lines
130-146) and readBinary (main.go lines 417-437): consume bytes one at a
time until the contiguous magic pair AA 55 has been read; the bytes before
and including the magic are consumed.  Returns the remaining stream, or
none when the stream runs out while scanning. -/
def scanMagic : List Nat → Option (List Nat)
  | [] => none
  | a :: s =>
    if a ≠ 0xAA then scanMagic s
    else
      match s with
      | [] => none
      | b :: s2 => if b = 0x55 then some s2 else scanMagic s2

/-- Little-endian 32-bit millis field as assembled by readOneFrame
(arduino.go lines 179-182) from the seven-byte header. -/
def parseMillis (hdr : List Nat) : Nat :=
  hdr.getD 0 0 ||| hdr.getD 1 0 <<< 8 ||| hdr.getD 2 0 <<< 16 ||| hdr.getD 3 0 <<< 24

/-- Big-endian 16-bit DID field as assembled by readOneFrame
(arduino.go line 183) and readBinary (main.go line 445). -/
def parseDid (hdr : List Nat) : Nat :=
  hdr.getD 4 0 <<< 8 ||| hdr.getD 5 0

/-- Result of one readOneFrame call: a frame together with the unread rest
of the stream, a recoverable decode error after which the caller continues
on the unread rest, or end of stream. -/
inductive ReadRes where
  | ok (f : Frame) (rest : List Nat)
  | fail (rest : List Nat)
  | eof
deriving DecidableEq, Repr

/-- readOneFrame from arduino.go (lines 126-190).  After the magic scan the
seven-byte header is read with io.ReadFull (an empty stream is io.EOF, a
partial read consumes the stream and is a recoverable error), the length
byte is validated against 64, then payload plus trailing CRC byte are read
the same way.  The CRC comparison of lines 173-176 is computed in the
source but its rejection branch is commented out, so a mismatching frame
is returned all the same; accordingly no CRC condition appears here.
The dl < 0 half of the length check cannot fire on byte values. -/
def readOneFrame (s : List Nat) : ReadRes :=
  match scanMagic s with
  | none => .eof
  | some s1 =>
    if s1.length < 7 then (if s1.isEmpty then .eof else .fail [])
    else
      let hdr := s1.take 7
      let s2 := s1.drop 7
      let dl := hdr.getD 6 0
      if 64 < dl then .fail s2
      else if s2.length < dl + 1 then (if s2.isEmpty then .eof else .fail [])
      else .ok ⟨parseMillis hdr, parseDid hdr, s2.take dl⟩ (s2.drop (dl + 1))

/-- Fuel-indexed unfolding of the readBinary loop of arduino.go (lines
67-122): repeatedly call readOneFrame, skip recoverable errors, stop at
end of stream.  Every loop iteration consumes at least one byte, so the
length of the stream is always enough fuel (readFramesFuel_irrel below);
the raw-log and broadcast side effects are elided, keeping the emitted
frame sequence. -/
def readFramesFuel : Nat → List Nat → List Frame
  | 0, _ => []
  | fuel + 1, s =>
    match readOneFrame s with
    | .eof => []
    | .fail rest => readFramesFuel fuel rest
    | .ok f rest => f :: readFramesFuel fuel rest

/-- Frame sequence produced by readBinary (arduino.go) on a finite byte
stream. -/
def readBinaryFrames (s : List Nat) : List Frame :=
  readFramesFuel s.length s

/-- Result of one iteration of the readBinary loop of main.go: a decoded
(DID, payload) pair handed to broadcastParsedSensorData plus the unread
rest, a silently skipped record, or end of stream. -/
inductive MainStep where
  | ok (did : Nat) (data : List Nat) (rest : List Nat)
  | skip (rest : List Nat)
  | stop
deriving DecidableEq, Repr

/-- One iteration of the readBinary loop of main.go (lines 412-491): the
same magic scan, header read and length check as readOneFrame, but with
the CRC comparison active — a record whose trailing byte differs from the
computed CRC is dropped (line 467) and scanning continues after it.  The
loop forwards only the DID and payload (line 489). -/
def readOneFrameMain (s : List Nat) : MainStep :=
  match scanMagic s with
  | none => .stop
  | some s1 =>
    if s1.length < 7 then (if s1.isEmpty then .stop else .skip [])
    else
      let hdr := s1.take 7
      let s2 := s1.drop 7
      let dl := hdr.getD 6 0
      if 64 < dl then .skip s2
      else if s2.length < dl + 1 then (if s2.isEmpty then .stop else .skip [])
      else if frameCrc hdr (s2.take dl) ≠ s2.getD dl 0 then .skip (s2.drop (dl + 1))
      else .ok (parseDid hdr) (s2.take dl) (s2.drop (dl + 1))

/-- Fuel-indexed unfolding of the readBinary loop of main.go, collecting
the (DID, payload) pairs handed to broadcastParsedSensorData. -/
def readMainFuel : Nat → List Nat → List (Nat × List Nat)
  | 0, _ => []
  | fuel + 1, s =>
    match readOneFrameMain s with
    | .stop => []
    | .skip rest => readMainFuel fuel rest
    | .ok did data rest => (did, data) :: readMainFuel fuel rest

/-- Record sequence produced by readBinary (main.go) on a finite byte
stream. -/
def readBinaryMainRecords (s : List Nat) : List (Nat × List Nat) :=
  readMainFuel s.length s

/-- The seven header bytes of a frame as rebuilt by readBinary in
arduino.go (lines 89-96): millis little-endian, DID big-endian, payload
length; Go byte conversion truncates modulo 256. -/
def frameHeader (f : Frame) : List Nat :=
  [f.millis % 256, (f.millis >>> 8) % 256, (f.millis >>> 16) % 256, (f.millis >>> 24) % 256,
   (f.did >>> 8) % 256, f.did % 256, f.data.length % 256]

/-- Full wire record of a frame as rebuilt by readBinary in arduino.go
(lines 84-107): magic AA 55, header, payload, trailing CRC byte. -/
def encodeFrame (f : Frame) : List Nat :=
  0xAA :: 0x55 :: (frameHeader f ++ f.data ++ [frameCrc (frameHeader f) f.data])

/-- Reference CRC-8/CCITT round, following the specification text: shift
the byte left one position, XORing in the polynomial 0x07 exactly when
the shifted-out most significant bit was set.  Stated over byte values,
so the shifted-out bit is the 128s place. -/
def crcSpecRound (c : Nat) : Nat :=
  if 128 ≤ c then (c - 128) * 2 ^^^ 0x07 else c * 2

/-- Iterated reference rounds. -/
def crcSpecIter : Nat → Nat → Nat
  | 0, c => c
  | n + 1, c => crcSpecIter n (crcSpecRound c)

/-- Reference CRC-8/CCITT step from the specification: XOR the input byte
into the accumulator, then run eight reference rounds (polynomial 0x07,
MSB first, no input or output reflection, no final XOR). -/
def crcSpecUpdate (crc b : Nat) : Nat := crcSpecIter 8 (crc ^^^ b)

/-- Reference buffer update from the specification: left-to-right fold of
the reference step over a byte sequence. -/
def crcSpecUpdateBuf (crc : Nat) (p : List Nat) : Nat := p.foldl crcSpecUpdate crc

/-- Sensor identifier constants from main.go. -/
def RPM_DID : Nat := 0x0100

/-- Throttle identifier constant from main.go. -/
def THROTTLE_DID : Nat := 0x0001

/-- Grip identifier constant from main.go. -/
def GRIP_DID : Nat := 0x0070

/-- Throttle-position-sensor identifier constant from main.go. -/
def TPS_DID : Nat := 0x0076

/-- Coolant identifier constant from main.go. -/
def COOLANT_DID : Nat := 0x0009

/-- Update maps handed to EventHub.Broadcast: finite name/value
association lists modelling the Go map literals, whose sample values are
integers. -/
abbrev SigMap := List (String × Int)

/-- broadcastParsedSensorData from main.go (second revision, lines
512-553; the readScanner revisions carry the same function): decode one
(identifier, payload, timestamp) triple into the single map handed to
EventHub.Broadcast, or none when the identifier is unrecognised or the
payload too short.  The Go switch converts the identifier with uint16();
Go int arithmetic on these byte-derived values is non-negative and is
modelled on Nat, except the coolant offset subtraction, which can go
negative and lives on Int. -/
def broadcastParsedSensorData (didVal : Nat) (dataBytes : List Nat) (timestamp : Int) :
    Option SigMap :=
  if didVal % 65536 = RPM_DID then
    if 2 ≤ dataBytes.length then
      let raw := dataBytes.getD 0 0 <<< 8 ||| dataBytes.getD 1 0
      some [("rpm", (↑(raw / 4) : Int)), ("timestamp", timestamp)]
    else none
  else if didVal % 65536 = THROTTLE_DID then
    if 1 ≤ dataBytes.length then
      let raw8 := dataBytes.getD (dataBytes.length - 1) 0
      some [("throttle", (↑raw8 : Int)), ("timestamp", timestamp)]
    else none
  else if didVal % 65536 = GRIP_DID then
    if 1 ≤ dataBytes.length then
      let raw8 := dataBytes.getD (dataBytes.length - 1) 0
      some [("grip", (↑raw8 : Int)), ("timestamp", timestamp)]
    else none
  else if didVal % 65536 = TPS_DID then
    if 2 ≤ dataBytes.length then
      let raw := dataBytes.getD 0 0 <<< 8 ||| dataBytes.getD 1 0
      let raw2 := if 1023 < raw then 1023 else raw
      some [("tps", (↑((raw2 * 100 + 511) / 1023) : Int)), ("timestamp", timestamp)]
    else none
  else if didVal % 65536 = COOLANT_DID then
    if 2 ≤ dataBytes.length then
      let val := dataBytes.getD 0 0 <<< 8 ||| dataBytes.getD 1 0
      some [("coolant", (↑val : Int) - 40), ("timestamp", timestamp)]
    else if dataBytes.length = 1 then
      some [("coolant", (↑(dataBytes.getD 0 0) : Int) - 40), ("timestamp", timestamp)]
    else none
  else none

/-- Go map assignment last(k) = v on the association-list representation:
the new binding replaces any binding of the same key, so lookup and key
count behave as the Go map does. -/
def mapSet (m : SigMap) (k : String) (v : Int) : SigMap :=
  (k, v) :: m.filter (fun kv => kv.1 != k)

/-- Merge of a broadcast map into the snapshot: the range-and-assign loop
of EventHub.Broadcast (hub package, lines 39-41). -/
def mergeMap (last sig : SigMap) : SigMap :=
  sig.foldl (fun m kv => mapSet m kv.1 kv.2) last

/-- EventHub state (hub package): the subscriber mailboxes keyed by id,
the next subscription id, and the latest-value snapshot.  A mailbox
models a Go channel of capacity 16 as the queue of its pending
deliveries. -/
structure EventHub where
  subs : List (Nat × List SigMap)
  next : Nat
  last : SigMap
deriving DecidableEq, Repr

/-- NewHub from the hub package: no subscribers, empty snapshot, ids
starting at zero. -/
def NewHub : EventHub := { subs := [], next := 0, last := [] }

/-- EventHub.Subscribe (hub package, lines 16-35): allocate the next id,
create a capacity-16 mailbox, enqueue one copy of the snapshot into it
when the snapshot is non-empty, register the mailbox, and return the id
together with the new hub state.  The returned cancel closure is
modelled by the Cancel operation below. -/
def Subscribe (h : EventHub) : Nat × EventHub :=
  (h.next,
   { subs := h.subs ++ [(h.next, if h.last.isEmpty then [] else [h.last])],
     next := h.next + 1,
     last := h.last })

/-- EventHub.Broadcast (hub package, lines 37-49): merge the update map
into the snapshot, then offer a copy of the update to every mailbox with
a non-blocking send — a mailbox already holding 16 pending deliveries
drops this update. -/
def Broadcast (h : EventHub) (sig : SigMap) : EventHub :=
  { subs := h.subs.map (fun idch =>
      (idch.1, if idch.2.length < 16 then idch.2 ++ [sig] else idch.2)),
    next := h.next,
    last := mergeMap h.last sig }

/-- The cancel closure returned by EventHub.Subscribe (hub package, lines
26-33): when the id is still registered, close and remove its mailbox;
otherwise do nothing. -/
def Cancel (h : EventHub) (id : Nat) : EventHub :=
  { h with subs := h.subs.filter (fun idch => idch.1 != id) }

/-- One hub-state operation, for reasoning about sequences of Subscribe
and cancel calls. -/
inductive HubOp where
  | subscribe
  | cancel (id : Nat)

/-- Apply one operation to a hub state. -/
def applyOp (h : EventHub) : HubOp → EventHub
  | .subscribe => (Subscribe h).2
  | .cancel id => Cancel h id

/-- Hub state after a sequence of operations on a fresh hub. -/
def runOps (ops : List HubOp) : EventHub := ops.foldl applyOp NewHub

/-- The ids returned by the Subscribe calls of an operation sequence, in
order. -/
def returnedIds : EventHub → List HubOp → List Nat
  | _, [] => []
  | h, .subscribe :: ops => (Subscribe h).1 :: returnedIds (Subscribe h).2 ops
  | h, .cancel id :: ops => returnedIds (Cancel h id) ops

/-- Value carried by the most recent update map containing a given name
within a sequence of broadcast maps; the snapshot invariant is phrased
against it. -/
def lastValueIn (sigs : List SigMap) (k : String) : Option Int :=
  sigs.foldl (fun acc sig => (sig.lookup k).or acc) none

/-! ### Byte assembly: the bitwise-or composition of disjoint byte fields
used by parseMillis and parseDid equals plain positional arithmetic. -/

lemma or_shl_eq_add {a : Nat} (b k : Nat) (h : a < 2 ^ k) :
    a ||| b <<< k = 2 ^ k * b + a := by
  rw [Nat.shiftLeft_eq, Nat.lor_comm, Nat.mul_comm b (2 ^ k)]
  exact (Nat.mul_add_lt_is_or h b).symm

lemma or_bytes4 {b0 b1 b2 b3 : Nat} (h0 : b0 < 256) (h1 : b1 < 256) (h2 : b2 < 256) :
    b0 ||| b1 <<< 8 ||| b2 <<< 16 ||| b3 <<< 24
      = b0 + b1 * 256 + b2 * 65536 + b3 * 16777216 := by
  have e1 : b0 ||| b1 <<< 8 = 2 ^ 8 * b1 + b0 := or_shl_eq_add b1 8 (by omega)
  have l1 : b0 ||| b1 <<< 8 < 2 ^ 16 := by rw [e1]; omega
  have e2 : (b0 ||| b1 <<< 8) ||| b2 <<< 16 = 2 ^ 16 * b2 + (b0 ||| b1 <<< 8) :=
    or_shl_eq_add b2 16 l1
  have l2 : (b0 ||| b1 <<< 8) ||| b2 <<< 16 < 2 ^ 24 := by rw [e2, e1]; omega
  have e3 : ((b0 ||| b1 <<< 8) ||| b2 <<< 16) ||| b3 <<< 24
      = 2 ^ 24 * b3 + ((b0 ||| b1 <<< 8) ||| b2 <<< 16) := or_shl_eq_add b3 24 l2
  rw [e3, e2, e1]
  omega

lemma frameHeader_length (f : Frame) : (frameHeader f).length = 7 := rfl

lemma parseMillis_frameHeader (f : Frame) (hm : f.millis < 4294967296) :
    parseMillis (frameHeader f) = f.millis := by
  simp only [parseMillis, frameHeader, List.getD_cons_zero, List.getD_cons_succ]
  rw [or_bytes4 (Nat.mod_lt _ (by norm_num)) (Nat.mod_lt _ (by norm_num))
    (Nat.mod_lt _ (by norm_num))]
  rw [Nat.shiftRight_eq_div_pow, Nat.shiftRight_eq_div_pow, Nat.shiftRight_eq_div_pow]
  omega

lemma parseDid_frameHeader (f : Frame) (hd : f.did < 65536) :
    parseDid (frameHeader f) = f.did := by
  simp only [parseDid, frameHeader, List.getD_cons_zero, List.getD_cons_succ]
  rw [Nat.lor_comm, or_shl_eq_add _ 8 (by omega : f.did % 256 < 2 ^ 8)]
  rw [Nat.shiftRight_eq_div_pow]
  omega

/-! ### Magic-byte scanning -/

lemma scanMagic_magic (t : List Nat) : scanMagic (0xAA :: 0x55 :: t) = some t := rfl

lemma scanMagic_cons_ne {a : Nat} (ha : a ≠ 0xAA) (s : List Nat) :
    scanMagic (a :: s) = scanMagic s := by
  conv_lhs => rw [scanMagic.eq_def]
  simp [ha]

lemma scanMagic_garbage {g : List Nat} (hg : ∀ b ∈ g, b ≠ 0xAA) (s : List Nat) :
    scanMagic (g ++ s) = scanMagic s := by
  induction g with
  | nil => rfl
  | cons a g ih =>
    have ha : a ≠ 0xAA := hg a (by simp)
    have ih2 := ih (fun b hb => hg b (by simp [hb]))
    rw [List.cons_append, scanMagic_cons_ne ha, ih2]

/-! ### Round-trip of the wire encoding through readOneFrame -/

lemma readOneFrame_garbage_encode {g : List Nat} (hg : ∀ b ∈ g, b ≠ 0xAA)
    (f : Frame) (rest : List Nat)
    (hm : f.millis < 4294967296) (hd : f.did < 65536) (hl : f.data.length ≤ 64) :
    readOneFrame (g ++ (encodeFrame f ++ rest)) = .ok f rest := by
  have hsm : scanMagic (g ++ (encodeFrame f ++ rest))
      = some (frameHeader f ++ ((f.data ++ [frameCrc (frameHeader f) f.data]) ++ rest)) := by
    rw [scanMagic_garbage hg]
    show scanMagic (0xAA :: 0x55 ::
      ((frameHeader f ++ f.data ++ [frameCrc (frameHeader f) f.data]) ++ rest)) = _
    rw [scanMagic_magic]
    simp [List.append_assoc]
  rw [readOneFrame, hsm]
  have hlen : (frameHeader f ++ ((f.data ++ [frameCrc (frameHeader f) f.data]) ++ rest)).length
      = 7 + (f.data.length + 1 + rest.length) := by
    simp [frameHeader]
    omega
  have htake : (frameHeader f ++ ((f.data ++ [frameCrc (frameHeader f) f.data]) ++ rest)).take 7
      = frameHeader f := List.take_left' (frameHeader_length f)
  have hdrop : (frameHeader f ++ ((f.data ++ [frameCrc (frameHeader f) f.data]) ++ rest)).drop 7
      = (f.data ++ [frameCrc (frameHeader f) f.data]) ++ rest :=
    List.drop_left' (frameHeader_length f)
  have hgetD : (frameHeader f).getD 6 0 = f.data.length := by
    simp only [frameHeader, List.getD_cons_zero, List.getD_cons_succ]
    exact Nat.mod_eq_of_lt (by omega)
  simp only [htake, hdrop, hgetD, hlen]
  have h7 : ¬ 7 + (f.data.length + 1 + rest.length) < 7 := by omega
  rw [if_neg h7]
  have h64 : ¬ 64 < f.data.length := by omega
  rw [if_neg h64]
  have hlen2 : ((f.data ++ [frameCrc (frameHeader f) f.data]) ++ rest).length
      = f.data.length + 1 + rest.length := by
    simp
    omega
  have hshort : ¬ ((f.data ++ [frameCrc (frameHeader f) f.data]) ++ rest).length
      < f.data.length + 1 := by
    rw [hlen2]; omega
  rw [if_neg hshort]
  have htake2 : ((f.data ++ [frameCrc (frameHeader f) f.data]) ++ rest).take f.data.length
      = f.data := by
    rw [List.append_assoc]
    exact List.take_left' rfl
  have hdrop2 : ((f.data ++ [frameCrc (frameHeader f) f.data]) ++ rest).drop
      (f.data.length + 1) = rest := by
    refine List.drop_left' ?_
    simp
  rw [htake2, hdrop2, parseMillis_frameHeader f hm, parseDid_frameHeader f hd]

/-! ### Shape of one decoder step and fuel bookkeeping for the read loops -/

lemma scanMagic_length {s s1 : List Nat} (h : scanMagic s = some s1) :
    s1.length + 2 ≤ s.length := by
  induction s using scanMagic.induct generalizing s1 with
  | case1 => simp [scanMagic] at h
  | case2 b s2 hb ih =>
    rw [scanMagic_cons_ne hb] at h
    have := ih h
    simp only [List.length_cons]
    omega
  | case3 b hb =>
    have hb2 : b = 170 := by omega
    subst hb2
    simp [scanMagic] at h
  | case4 b hb s2 =>
    have hb2 : b = 170 := by omega
    subst hb2
    have hstep : scanMagic (170 :: 85 :: s2) = some s2 := rfl
    rw [hstep] at h
    cases h
    simp
  | case5 b hb c s2 hc ih =>
    have hb2 : b = 170 := by omega
    subst hb2
    have hstep : scanMagic (170 :: c :: s2) = scanMagic s2 := by
      conv_lhs => rw [scanMagic.eq_def]
      simp [hc]
    rw [hstep] at h
    have := ih h
    simp only [List.length_cons]
    omega

lemma readOneFrame_cases (s : List Nat) :
    readOneFrame s = .eof
    ∨ (∃ rest, readOneFrame s = .fail rest ∧ rest.length < s.length)
    ∨ (∃ f rest, readOneFrame s = .ok f rest ∧ rest.length < s.length
        ∧ f.data.length ≤ 64) := by
  cases hm : scanMagic s with
  | none =>
    left
    rw [readOneFrame, hm]
  | some s1 =>
    have hsl := scanMagic_length hm
    by_cases h7 : s1.length < 7
    · by_cases he : s1.isEmpty
      · left
        rw [readOneFrame, hm]
        simp [h7, he]
      · right; left
        refine ⟨[], ?_, by simp; omega⟩
        rw [readOneFrame, hm]
        simp [h7, he]
    · by_cases h64 : 64 < s1[6]?.getD 0
      · right; left
        refine ⟨s1.drop 7, ?_, by simp; omega⟩
        rw [readOneFrame, hm]
        simp [h7, h64]
      · by_cases hsh : s1.length - 7 < s1[6]?.getD 0 + 1
        · by_cases he2 : s1.length ≤ 7
          · left
            rw [readOneFrame, hm]
            simp [h7, h64, hsh, he2]
          · right; left
            refine ⟨[], ?_, by simp; omega⟩
            rw [readOneFrame, hm]
            simp [h7, h64, hsh, he2]
        · right; right
          refine ⟨⟨parseMillis (s1.take 7), parseDid (s1.take 7),
              (s1.drop 7).take ((s1.take 7).getD 6 0)⟩,
            (s1.drop 7).drop ((s1.take 7).getD 6 0 + 1), ?_, ?_, ?_⟩
          · rw [readOneFrame, hm]
            simp [h7, h64, hsh]
          · simp
            omega
          · simp
            omega

lemma readFramesFuel_nil (k : Nat) : readFramesFuel k [] = [] := by
  cases k <;> rfl

lemma readFramesFuel_irrel : ∀ (fuel : Nat) {s : List Nat} (fuel' : Nat),
    s.length ≤ fuel → s.length ≤ fuel' →
    readFramesFuel fuel s = readFramesFuel fuel' s := by
  intro fuel
  induction fuel with
  | zero =>
    intro s fuel' h h'
    have hs : s = [] := by
      cases s with
      | nil => rfl
      | cons a t => simp at h
    subst hs
    rw [readFramesFuel_nil, readFramesFuel_nil]
  | succ n ih =>
    intro s fuel' h h'
    cases s with
    | nil => rw [readFramesFuel_nil, readFramesFuel_nil]
    | cons a t =>
      cases fuel' with
      | zero => simp at h'
      | succ m =>
        show (match readOneFrame (a :: t) with
          | .eof => []
          | .fail rest => readFramesFuel n rest
          | .ok f rest => f :: readFramesFuel n rest)
          = (match readOneFrame (a :: t) with
          | .eof => []
          | .fail rest => readFramesFuel m rest
          | .ok f rest => f :: readFramesFuel m rest)
        rcases readOneFrame_cases (a :: t) with he | ⟨rest, hf, hlt⟩ | ⟨f, rest, hok, hlt, hd⟩
        · rw [he]
        · rw [hf]
          exact ih m (by omega) (by omega)
        · rw [hok]
          exact congrArg (f :: ·) (ih m (by omega) (by omega))

/-- One-step unfolding of readBinaryFrames as the readBinary loop of
arduino.go performs it. -/
lemma readBinaryFrames_eq (s : List Nat) :
    readBinaryFrames s = match readOneFrame s with
      | .eof => []
      | .fail rest => readBinaryFrames rest
      | .ok f rest => f :: readBinaryFrames rest := by
  cases s with
  | nil => rfl
  | cons a t =>
    show (match readOneFrame (a :: t) with
      | .eof => []
      | .fail rest => readFramesFuel t.length rest
      | .ok f rest => f :: readFramesFuel t.length rest) = _
    rcases readOneFrame_cases (a :: t) with he | ⟨rest, hf, hlt⟩ | ⟨f, rest, hok, hlt, hd⟩
    · rw [he]
    · rw [hf]
      simp only [List.length_cons] at hlt
      exact readFramesFuel_irrel t.length rest.length (by omega) (by omega)
    · rw [hok]
      simp only [List.length_cons] at hlt
      exact congrArg (f :: ·) (readFramesFuel_irrel t.length rest.length (by omega) (by omega))

lemma readFramesFuel_data_le (fuel : Nat) :
    ∀ (s : List Nat) (f : Frame), f ∈ readFramesFuel fuel s → f.data.length ≤ 64 := by
  induction fuel with
  | zero =>
    intro s f hf
    simp [readFramesFuel] at hf
  | succ n ih =>
    intro s f hf
    have hf2 : f ∈ (match readOneFrame s with
      | ReadRes.eof => ([] : List Frame)
      | ReadRes.fail rest => readFramesFuel n rest
      | ReadRes.ok g rest => g :: readFramesFuel n rest) := hf
    rcases readOneFrame_cases s with he | ⟨rest, hfail, _⟩ | ⟨g, rest, hok, _, hle⟩
    · rw [he] at hf2
      simp at hf2
    · rw [hfail] at hf2
      exact ih rest f hf2
    · rw [hok] at hf2
      have hf3 : f = g ∨ f ∈ readFramesFuel n rest := by
        simpa using hf2
      rcases hf3 with rfl | hf4
      · exact hle
      · exact ih rest f hf4

/-! ### Claim theorems for the frame decoder -/

/-- C1: encoding a Frame with a 32-bit timestamp, a 16-bit identifier and
a payload of at most 64 bytes into the wire layout — magic AA 55,
timestamp little-endian, identifier big-endian, length byte, payload,
correct trailing CRC-8 — and running readOneFrame on the resulting byte
stream yields back exactly the identical (timestampMs, identifier,
payload), consuming the whole stream. -/
theorem frame_roundtrip (f : Frame)
    (hm : f.millis < 4294967296) (hd : f.did < 65536) (hl : f.data.length ≤ 64) :
    readOneFrame (encodeFrame f) = .ok f [] := by
  have h := readOneFrame_garbage_encode (g := []) (by simp) f [] hm hd hl
  simpa using h

/-- Witness for C1 at a concrete frame. -/
theorem frame_roundtrip_witness :
    readOneFrame (encodeFrame ⟨1, 256, [19, 136]⟩) = .ok ⟨1, 256, [19, 136]⟩ [] :=
  frame_roundtrip ⟨1, 256, [19, 136]⟩ (by norm_num) (by norm_num) (by decide)

/-- C2: at a stream holding a frame whose trailing CRC byte is wrong (21
instead of 20) followed by a valid frame, the readBinary loop of main.go
drops the corrupted record, resynchronises and still produces the valid
record, as the claim states; but readOneFrame of arduino.go, whose CRC
rejection branch is commented out, emits the corrupted frame as well. -/
theorem crc_mismatch_behavior :
    readBinaryFrames ([0xAA, 0x55, 1, 0, 0, 0, 1, 0, 2, 19, 136, 21]
        ++ encodeFrame ⟨2, 0x0076, [0x03, 0xFF]⟩)
      = [⟨1, 0x0100, [0x13, 0x88]⟩, ⟨2, 0x0076, [0x03, 0xFF]⟩]
    ∧ readBinaryMainRecords ([0xAA, 0x55, 1, 0, 0, 0, 1, 0, 2, 19, 136, 21]
        ++ encodeFrame ⟨2, 0x0076, [0x03, 0xFF]⟩)
      = [(0x0076, [0x03, 0xFF])]
    ∧ frameCrc [1, 0, 0, 0, 1, 0, 2] [0x13, 0x88] ≠ 21 := by
  refine ⟨by decide, by decide, by decide⟩

/-- C3 as stated is false: a garbage segment consisting of the single
byte AA — which contains no valid frame — derails the scanner, because
the scan consumes the real magic pair as a failed AA/55 test; the first
encoded frame is lost, so the stream does not decode to the two frames. -/
theorem resync_counterexample :
    readBinaryFrames ([0xAA] ++ encodeFrame ⟨1, 0x0100, [0x13, 0x88]⟩
        ++ [] ++ encodeFrame ⟨2, 0x0076, [0x03, 0xFF]⟩)
      ≠ [⟨1, 0x0100, [0x13, 0x88]⟩, ⟨2, 0x0076, [0x03, 0xFF]⟩]
    ∧ readBinaryFrames [0xAA] = [] := by
  refine ⟨by decide, by decide⟩

/-- C3 (amended): for garbage segments that never contain the magic
lead-in byte AA, a stream garbage1 ++ frame1 ++ garbage2 ++ frame2
decodes to exactly the two encoded frames, in order, with every garbage
byte silently skipped. -/
theorem resync_two_frames (g1 g2 : List Nat) (f1 f2 : Frame)
    (hg1 : ∀ b ∈ g1, b ≠ 0xAA) (hg2 : ∀ b ∈ g2, b ≠ 0xAA)
    (hm1 : f1.millis < 4294967296) (hd1 : f1.did < 65536) (hl1 : f1.data.length ≤ 64)
    (hm2 : f2.millis < 4294967296) (hd2 : f2.did < 65536) (hl2 : f2.data.length ≤ 64) :
    readBinaryFrames (g1 ++ encodeFrame f1 ++ g2 ++ encodeFrame f2) = [f1, f2] := by
  have e1 : g1 ++ encodeFrame f1 ++ g2 ++ encodeFrame f2
      = g1 ++ (encodeFrame f1 ++ (g2 ++ (encodeFrame f2 ++ []))) := by simp
  rw [e1, readBinaryFrames_eq, readOneFrame_garbage_encode hg1 f1 _ hm1 hd1 hl1]
  show f1 :: readBinaryFrames (g2 ++ (encodeFrame f2 ++ [])) = [f1, f2]
  rw [readBinaryFrames_eq, readOneFrame_garbage_encode hg2 f2 [] hm2 hd2 hl2]
  show f1 :: f2 :: readBinaryFrames [] = [f1, f2]
  rfl

/-- Witness for the amended C3 at concrete garbage and frames. -/
theorem resync_two_frames_witness :
    readBinaryFrames ([0, 1] ++ encodeFrame ⟨1, 0x0100, [0x13, 0x88]⟩
        ++ [7] ++ encodeFrame ⟨2, 0x0076, [0x03, 0xFF]⟩)
      = [⟨1, 0x0100, [0x13, 0x88]⟩, ⟨2, 0x0076, [0x03, 0xFF]⟩] :=
  resync_two_frames [0, 1] [7] ⟨1, 0x0100, [0x13, 0x88]⟩ ⟨2, 0x0076, [0x03, 0xFF]⟩
    (by decide) (by decide) (by norm_num) (by norm_num) (by decide)
    (by norm_num) (by norm_num) (by decide)

/-- C4: the decoder never emits a Frame whose payload is longer than 64
bytes — a header declaring a larger length is rejected as a framing error
and scanning resumes after the header; concretely, a record whose header
declares payload length 65, followed by a valid frame, yields only the
valid frame. -/
theorem length_bound :
    (∀ (s : List Nat) (f : Frame), f ∈ readBinaryFrames s → f.data.length ≤ 64)
    ∧ readBinaryFrames ([0xAA, 0x55, 0, 0, 0, 0, 0, 1, 65]
        ++ encodeFrame ⟨2, 0x0076, [0x03, 0xFF]⟩) = [⟨2, 0x0076, [0x03, 0xFF]⟩] := by
  refine ⟨?_, by decide⟩
  intro s f hf
  exact readFramesFuel_data_le s.length s f hf

/-- Witness for C4 at a concrete stream and decoded frame. -/
theorem length_bound_witness :
    (⟨2, 0x0076, [0x03, 0xFF]⟩ : Frame) ∈ readBinaryFrames (encodeFrame ⟨2, 0x0076, [0x03, 0xFF]⟩)
    ∧ (Frame.data ⟨2, 0x0076, [0x03, 0xFF]⟩).length ≤ 64 :=
  ⟨by decide, length_bound.1 (encodeFrame ⟨2, 0x0076, [0x03, 0xFF]⟩) _ (by decide)⟩

/-! ### The CRC-8 engine matches the reference CRC-8/CCITT definition -/

lemma crc8Round_eq_spec : ∀ c < 256, crc8Round c = crcSpecRound c ∧ crc8Round c < 256 := by
  decide

lemma crc8Rounds_eq_spec (n : Nat) : ∀ c, c < 256 →
    crc8Rounds n c = crcSpecIter n c ∧ crc8Rounds n c < 256 := by
  induction n with
  | zero => intro c hc; exact ⟨rfl, hc⟩
  | succ m ih =>
    intro c hc
    have h1 := crc8Round_eq_spec c hc
    have h2 := ih (crc8Round c) h1.2
    constructor
    · show crc8Rounds m (crc8Round c) = crcSpecIter m (crcSpecRound c)
      rw [← h1.1]
      exact h2.1
    · exact h2.2

lemma crc8Update_eq_spec {crc b : Nat} (hc : crc < 256) (hb : b < 256) :
    crc8Update crc b = crcSpecUpdate crc b ∧ crc8Update crc b < 256 := by
  have hx : crc ^^^ b < 256 := Nat.xor_lt_two_pow (n := 8) (by omega) (by omega)
  exact crc8Rounds_eq_spec 8 _ hx

/-- C5: crc8Update equals one step of the reference CRC-8/CCITT
definition (XOR the input byte into the accumulator, then eight
iterations of shift-left-one XORing 0x07 whenever the shifted-out MSB was
set; polynomial 0x07, MSB first, no reflection, no final XOR), and
crc8UpdateBuf is the left-to-right fold of crc8Update, agreeing with the
reference fold, for all byte-valued inputs. -/
theorem crc8_matches_reference :
    (∀ crc b : Nat, crc < 256 → b < 256 → crc8Update crc b = crcSpecUpdate crc b)
    ∧ (∀ (crc : Nat) (p : List Nat), crc8UpdateBuf crc p = p.foldl crc8Update crc)
    ∧ (∀ (crc : Nat) (p : List Nat), crc < 256 → (∀ b ∈ p, b < 256) →
        crc8UpdateBuf crc p = crcSpecUpdateBuf crc p) := by
  refine ⟨fun crc b hc hb => (crc8Update_eq_spec hc hb).1, fun crc p => rfl, ?_⟩
  intro crc p
  induction p generalizing crc with
  | nil => intro _ _; rfl
  | cons b t ih =>
    intro hc hp
    have hb : b < 256 := hp b (by simp)
    have h1 := crc8Update_eq_spec hc hb
    show crc8UpdateBuf (crc8Update crc b) t = crcSpecUpdateBuf (crcSpecUpdate crc b) t
    rw [← h1.1]
    exact ih (crc8Update crc b) h1.2 (fun x hx => hp x (by simp [hx]))

/-- Witness for C5 at concrete bytes. -/
theorem crc8_matches_reference_witness :
    crc8Update 0 49 = crcSpecUpdate 0 49
    ∧ crc8UpdateBuf 171 [1, 2, 3] = crcSpecUpdateBuf 171 [1, 2, 3] :=
  ⟨crc8_matches_reference.1 0 49 (by norm_num) (by norm_num),
   crc8_matches_reference.2.2 171 [1, 2, 3] (by norm_num) (by decide)⟩

/-! ### The tps decode rule -/

lemma broadcastParsedSensorData_tps (dataBytes : List Nat) (ts : Int)
    (h : 2 ≤ dataBytes.length) :
    broadcastParsedSensorData 0x0076 dataBytes ts
      = some [("tps",
          (↑((min (dataBytes.getD 0 0 <<< 8 ||| dataBytes.getD 1 0) 1023 * 100 + 511) / 1023)
            : Int)),
          ("timestamp", ts)] := by
  simp only [broadcastParsedSensorData, RPM_DID, THROTTLE_DID, GRIP_DID, TPS_DID, COOLANT_DID]
  norm_num [h]
  split <;> omega

lemma tps_round_eq (c : Nat) :
    (((c * 100 + 511) / 1023 : ℕ) : ℤ) = round ((↑c * 100 : ℚ) / 1023) := by
  have hcast : ((↑c * 100 : ℚ)) / 1023 + 1 / 2
      = (((2 * (c * 100) + 1023 : ℕ) : ℚ)) / (((2046 : ℕ) : ℚ)) := by
    push_cast
    ring
  rw [round_eq, hcast, Rat.floor_natCast_div_natCast]
  push_cast
  omega

/-- C6: for identifier 0x0076 with a payload of at least two bytes, the
emitted tps sample value is the integer form (clamped-raw * 100 + 511) /
1023, where the raw reading is the big-endian value of the first two
payload bytes clamped to 1023, and that integer form equals
round(min(raw, 1023) * 100 / 1023) over the rationals; payload 03 FF
yields exactly 100 and payload 00 00 yields 0. -/
theorem tps_decode (b0 b1 : Nat) (rest : List Nat) (ts : Int)
    (h0 : b0 < 256) (h1 : b1 < 256) :
    broadcastParsedSensorData 0x0076 (b0 :: b1 :: rest) ts
      = some [("tps", (((min (b0 <<< 8 ||| b1) 1023 * 100 + 511) / 1023 : ℕ) : ℤ)),
              ("timestamp", ts)]
    ∧ (((min (b0 <<< 8 ||| b1) 1023 * 100 + 511) / 1023 : ℕ) : ℤ)
        = round ((↑(min (b0 <<< 8 ||| b1) 1023) * 100 : ℚ) / 1023)
    ∧ broadcastParsedSensorData 0x0076 [0x03, 0xFF] ts
        = some [("tps", 100), ("timestamp", ts)]
    ∧ broadcastParsedSensorData 0x0076 [0x00, 0x00] ts
        = some [("tps", 0), ("timestamp", ts)] := by
  refine ⟨?_, tps_round_eq (min (b0 <<< 8 ||| b1) 1023), rfl, rfl⟩
  have h := broadcastParsedSensorData_tps (b0 :: b1 :: rest) ts (by simp)
  simpa using h

/-- Witness for C6 at a clamped concrete payload (raw = 1024). -/
theorem tps_decode_witness :
    broadcastParsedSensorData 0x0076 (4 :: 0 :: []) 7
      = some [("tps", (((min (4 <<< 8 ||| 0) 1023 * 100 + 511) / 1023 : ℕ) : ℤ)),
              ("timestamp", 7)]
    ∧ (((min (4 <<< 8 ||| 0) 1023 * 100 + 511) / 1023 : ℕ) : ℤ)
        = round ((↑(min (4 <<< 8 ||| 0) 1023) * 100 : ℚ) / 1023)
    ∧ broadcastParsedSensorData 0x0076 [0x03, 0xFF] 7 = some [("tps", 100), ("timestamp", 7)]
    ∧ broadcastParsedSensorData 0x0076 [0x00, 0x00] 7 = some [("tps", 0), ("timestamp", 7)] :=
  tps_decode 4 0 [] 7 (by norm_num) (by norm_num)

/-! ### Event hub: snapshot, replay-on-subscribe, backpressure, ids -/

lemma lookup_filter_ne {m : SigMap} {k k' : String} (h : ¬ k' = k) :
    (m.filter (fun kv => kv.1 != k)).lookup k' = m.lookup k' := by
  induction m with
  | nil => rfl
  | cons kv t ih =>
    obtain ⟨k1, v1⟩ := kv
    by_cases hk : k1 = k
    · subst hk
      rw [List.filter_cons, if_neg (by simp), ih]
      rw [List.lookup_cons, show (k' == k1) = false from by simpa using h]
    · rw [List.filter_cons, if_pos (by simp [hk])]
      rw [List.lookup_cons, List.lookup_cons, ih]

lemma lookup_mapSet (m : SigMap) (k : String) (v : Int) (k' : String) :
    (mapSet m k v).lookup k' = if k' = k then some v else m.lookup k' := by
  by_cases h : k' = k
  · subst h
    simp [mapSet]
  · rw [mapSet, List.lookup_cons, show (k' == k) = false from by simpa using h,
      if_neg h, lookup_filter_ne h]

lemma lookup_mergeMap {sig : SigMap} (hnd : (sig.map Prod.fst).Nodup) :
    ∀ (last : SigMap) (k : String),
    (mergeMap last sig).lookup k = (sig.lookup k).or (last.lookup k) := by
  induction sig with
  | nil => intro last k; rfl
  | cons kv t ih =>
    intro last k
    obtain ⟨k1, v1⟩ := kv
    simp only [List.map_cons, List.nodup_cons] at hnd
    have step : mergeMap last ((k1, v1) :: t) = mergeMap (mapSet last k1 v1) t := rfl
    rw [step, ih hnd.2, List.lookup_cons, lookup_mapSet]
    by_cases h : k = k1
    · subst h
      have hnone : t.lookup k = none := by
        rw [List.lookup_eq_none_iff]
        intro p hp
        simp only [bne_iff_ne, ne_eq]
        intro hkp
        exact hnd.1 (hkp ▸ List.mem_map_of_mem Prod.fst hp)
      simp [hnone]
    · have hb : (k == k1) = false := by simpa using h
      simp [hb, h]

lemma lookup_mergeMap_none {sig : SigMap} : ∀ {last : SigMap} {k : String},
    sig.lookup k = none → (mergeMap last sig).lookup k = last.lookup k := by
  induction sig with
  | nil => intro last k _; rfl
  | cons kv t ih =>
    intro last k hn
    obtain ⟨k1, v1⟩ := kv
    rw [List.lookup_eq_none_iff] at hn
    have hk1 : ¬ k = k1 := by simpa using hn (k1, v1) (by simp)
    have ht : t.lookup k = none := by
      rw [List.lookup_eq_none_iff]
      intro p hp
      exact hn p (by simp [hp])
    show (mergeMap (mapSet last k1 v1) t).lookup k = _
    rw [ih ht, lookup_mapSet, if_neg hk1]

lemma lastValueIn_foldl (t : List SigMap) (k : String) : ∀ acc : Option Int,
    t.foldl (fun acc sig => (sig.lookup k).or acc) acc
      = (t.foldl (fun acc sig => (sig.lookup k).or acc) none).or acc := by
  induction t with
  | nil => intro acc; rfl
  | cons s t ih =>
    intro acc
    rw [List.foldl_cons, List.foldl_cons, ih ((s.lookup k).or acc),
      ih ((s.lookup k).or none)]
    rw [Option.or_assoc, Option.or_assoc, Option.none_or]

lemma lookup_last_broadcasts : ∀ (sigs : List SigMap) (h : EventHub) (k : String),
    (∀ sig ∈ sigs, (sig.map Prod.fst).Nodup) →
    ((sigs.foldl Broadcast h).last).lookup k = (lastValueIn sigs k).or (h.last.lookup k) := by
  intro sigs
  induction sigs with
  | nil => intro h k _; rfl
  | cons sig t ih =>
    intro h k hnd
    rw [List.foldl_cons, ih (Broadcast h sig) k (fun s hs => hnd s (by simp [hs]))]
    rw [show (Broadcast h sig).last = mergeMap h.last sig from rfl]
    rw [lookup_mergeMap (hnd sig (by simp)) h.last k]
    show (lastValueIn t k).or ((sig.lookup k).or (h.last.lookup k))
      = (t.foldl (fun acc s => (s.lookup k).or acc) ((sig.lookup k).or none)).or
        (h.last.lookup k)
    rw [lastValueIn_foldl, Option.or_assoc, Option.or_assoc, Option.none_or]
    rfl

lemma lookup_broadcast_subs (h : EventHub) (sig : SigMap) (k : Nat) :
    (Broadcast h sig).subs.lookup k
      = (h.subs.lookup k).map (fun ch => if ch.length < 16 then ch ++ [sig] else ch) := by
  show (h.subs.map _).lookup k = _
  induction h.subs with
  | nil => rfl
  | cons p t ih =>
    obtain ⟨k1, v1⟩ := p
    rw [List.map_cons, List.lookup_cons, List.lookup_cons]
    cases hb : k == k1 with
    | false => simpa using ih
    | true => rfl

/-- C7: for every sequence of Broadcast calls on a fresh hub (each update
map carrying distinct keys), the Snapshot maps each name to the value of
the most recent broadcast containing that name; a broadcast never removes
or alters keys it does not contain; broadcasting the rpm map and then the
tps map leaves both keys present and every other name absent. -/
theorem hub_snapshot_semantics :
    (∀ (sigs : List SigMap) (k : String),
      (∀ sig ∈ sigs, (sig.map Prod.fst).Nodup) →
      ((sigs.foldl Broadcast NewHub).last).lookup k = lastValueIn sigs k)
    ∧ (∀ (h : EventHub) (sig : SigMap) (k : String), sig.lookup k = none →
      ((Broadcast h sig).last).lookup k = h.last.lookup k)
    ∧ ((([[("rpm", 5000)], [("tps", 50)]] : List SigMap).foldl Broadcast NewHub).last.lookup "rpm"
        = some 5000)
    ∧ ((([[("rpm", 5000)], [("tps", 50)]] : List SigMap).foldl Broadcast NewHub).last.lookup "tps"
        = some 50)
    ∧ (∀ k : String, k ≠ "rpm" → k ≠ "tps" →
      (([[("rpm", 5000)], [("tps", 50)]] : List SigMap).foldl Broadcast NewHub).last.lookup k
        = none) := by
  refine ⟨?_, ?_, by decide, by decide, ?_⟩
  · intro sigs k hnd
    rw [lookup_last_broadcasts sigs NewHub k hnd]
    show (lastValueIn sigs k).or none = _
    rw [Option.or_none]
  · intro h sig k hn
    exact lookup_mergeMap_none hn
  · intro k h1 h2
    have hval : (([[("rpm", 5000)], [("tps", 50)]] : List SigMap).foldl Broadcast NewHub).last
        = [("tps", 50), ("rpm", 5000)] := by decide
    rw [hval, List.lookup_cons, show (k == "tps") = false from by simpa using h2,
      List.lookup_cons, show (k == "rpm") = false from by simpa using h1]
    rfl

/-- Witness for C7 at a concrete broadcast sequence. -/
theorem hub_snapshot_semantics_witness :
    (([[("rpm", 5000)], [("tps", 50)]] : List SigMap).foldl Broadcast NewHub).last.lookup "rpm"
      = lastValueIn [[("rpm", 5000)], [("tps", 50)]] "rpm" :=
  hub_snapshot_semantics.1 [[("rpm", 5000)], [("tps", 50)]] "rpm" (by decide)

/-- C8: Subscribe on a hub whose subscriber ids respect the id counter
registers exactly one new mailbox under the returned id; that mailbox
holds exactly one pending delivery — the full accumulated Snapshot — when
the Snapshot is non-empty, and no delivery when it is empty, and a
subsequently broadcast update is queued after the snapshot delivery.
Subscribe is a total function, so it never fails. -/
theorem subscribe_snapshot_replay (h : EventHub) (sig : SigMap)
    (hids : ∀ p ∈ h.subs, p.1 < h.next) :
    ((Subscribe h).2.subs.lookup (Subscribe h).1
        = some (if h.last.isEmpty then [] else [h.last]))
    ∧ (¬ h.last.isEmpty →
        (Subscribe h).2.subs.lookup (Subscribe h).1 = some [h.last])
    ∧ (h.last.isEmpty → (Subscribe h).2.subs.lookup (Subscribe h).1 = some [])
    ∧ ((Broadcast (Subscribe h).2 sig).subs.lookup (Subscribe h).1
        = some ((if h.last.isEmpty then [] else [h.last]) ++ [sig])) := by
  have hnone : h.subs.lookup h.next = none := by
    rw [List.lookup_eq_none_iff]
    intro p hp
    have := hids p hp
    simp only [bne_iff_ne, ne_eq]
    omega
  have hmain : (Subscribe h).2.subs.lookup (Subscribe h).1
      = some (if h.last.isEmpty then [] else [h.last]) := by
    show ((h.subs ++ [(h.next, if h.last.isEmpty then [] else [h.last])]).lookup h.next) = _
    rw [List.lookup_append, hnone, Option.none_or, List.lookup_cons_self]
  refine ⟨hmain, ?_, ?_, ?_⟩
  · intro he
    rw [hmain, if_neg he]
  · intro he
    rw [hmain, if_pos he]
  · rw [lookup_broadcast_subs, hmain]
    have hlen : (if h.last.isEmpty then ([] : List SigMap) else [h.last]).length < 16 := by
      split <;> simp
    rw [Option.map_some', if_pos hlen]

/-- Witness for C8 at a concrete hub with one prior broadcast. -/
theorem subscribe_snapshot_replay_witness :
    (Subscribe (Broadcast NewHub [("rpm", 5000)])).2.subs.lookup
        (Subscribe (Broadcast NewHub [("rpm", 5000)])).1
      = some [[("rpm", 5000)]] :=
  ((subscribe_snapshot_replay (Broadcast NewHub [("rpm", 5000)]) [("tps", 50)]
      (by decide)).2.1) (by decide)

/-- C9: Broadcast is a total function of the hub state (it cannot block
or crash in the model), it always merges the update into the Snapshot,
every subscriber whose mailbox holds fewer than 16 pending deliveries
receives one copy of the partial update map, and a subscriber whose
mailbox is full keeps its mailbox unchanged while the others are still
served. -/
theorem broadcast_backpressure (h : EventHub) (sig : SigMap) :
    ((Broadcast h sig).last = mergeMap h.last sig)
    ∧ (∀ p ∈ h.subs, p.2.length < 16 → (p.1, p.2 ++ [sig]) ∈ (Broadcast h sig).subs)
    ∧ (∀ p ∈ h.subs, ¬ p.2.length < 16 → p ∈ (Broadcast h sig).subs) := by
  refine ⟨rfl, ?_, ?_⟩
  · intro p hp hlt
    have heq : (p.1, p.2 ++ [sig])
        = (fun idch : Nat × List SigMap =>
            (idch.1, if idch.2.length < 16 then idch.2 ++ [sig] else idch.2)) p := by
      simp [hlt]
    rw [heq]
    exact List.mem_map_of_mem _ hp
  · intro p hp hge
    have heq : (fun idch : Nat × List SigMap =>
        (idch.1, if idch.2.length < 16 then idch.2 ++ [sig] else idch.2)) p = p := by
      simp [hge]
    rw [← heq]
    exact List.mem_map_of_mem _ hp

/-- Witness for C9 at a hub with one full mailbox (16 pending) and one
empty mailbox. -/
theorem broadcast_backpressure_witness :
    ((0 : Nat), List.replicate 16 ([] : SigMap))
        ∈ (Broadcast ⟨[(0, List.replicate 16 []), (1, [])], 2, []⟩ [("rpm", 1)]).subs
    ∧ ((1 : Nat), ([] : List SigMap) ++ [[("rpm", 1)]])
        ∈ (Broadcast ⟨[(0, List.replicate 16 []), (1, [])], 2, []⟩ [("rpm", 1)]).subs :=
  ⟨(broadcast_backpressure ⟨[(0, List.replicate 16 []), (1, [])], 2, []⟩ [("rpm", 1)]).2.2
      (0, List.replicate 16 []) (by decide) (by decide),
   (broadcast_backpressure ⟨[(0, List.replicate 16 []), (1, [])], 2, []⟩ [("rpm", 1)]).2.1
      (1, []) (by decide) (by decide)⟩

lemma returnedIds_lb : ∀ (ops : List HubOp) (h : EventHub) (x : Nat),
    x ∈ returnedIds h ops → h.next ≤ x := by
  intro ops
  induction ops with
  | nil =>
    intro h x hx
    simp [returnedIds] at hx
  | cons op t ih =>
    intro h x hx
    cases op with
    | subscribe =>
      rw [returnedIds] at hx
      rcases List.mem_cons.mp hx with rfl | hx2
      · exact Nat.le_refl _
      · have h2 := ih (Subscribe h).2 x hx2
        have hn : (Subscribe h).2.next = h.next + 1 := rfl
        omega
    | cancel id =>
      rw [returnedIds] at hx
      exact ih (Cancel h id) x hx

lemma returnedIds_sorted : ∀ (ops : List HubOp) (h : EventHub),
    List.Pairwise (· < ·) (returnedIds h ops) := by
  intro ops
  induction ops with
  | nil => intro h; exact List.Pairwise.nil
  | cons op t ih =>
    intro h
    cases op with
    | subscribe =>
      rw [returnedIds]
      refine List.pairwise_cons.mpr ⟨?_, ih (Subscribe h).2⟩
      intro x hx
      have hlb := returnedIds_lb t (Subscribe h).2 x hx
      have hn : (Subscribe h).2.next = h.next + 1 := rfl
      show h.next < x
      omega
    | cancel id =>
      rw [returnedIds]
      exact ih (Cancel h id)

lemma hub_invariant : ∀ (ops : List HubOp) (h : EventHub),
    (h.subs.map Prod.fst).Nodup → (∀ p ∈ h.subs, p.1 < h.next) →
    ((ops.foldl applyOp h).subs.map Prod.fst).Nodup
      ∧ (∀ p ∈ (ops.foldl applyOp h).subs, p.1 < (ops.foldl applyOp h).next) := by
  intro ops
  induction ops with
  | nil => intro h h1 h2; exact ⟨h1, h2⟩
  | cons op t ih =>
    intro h h1 h2
    rw [List.foldl_cons]
    cases op with
    | subscribe =>
      apply ih
      · show ((h.subs ++ [(h.next, if h.last.isEmpty then [] else [h.last])]).map Prod.fst).Nodup
        rw [List.map_append, List.nodup_append]
        refine ⟨h1, by simp, ?_⟩
        intro x hx hy
        simp at hy
        rcases List.mem_map.mp hx with ⟨p, hp, rfl⟩
        have := h2 p hp
        omega
      · intro p hp
        show p.1 < h.next + 1
        rcases List.mem_append.mp hp with hl | hr
        · have := h2 p hl
          omega
        · simp only [List.mem_singleton] at hr
          rw [hr]
          show h.next < h.next + 1
          omega
    | cancel id =>
      apply ih
      · show ((h.subs.filter (fun idch => idch.1 != id)).map Prod.fst).Nodup
        exact h1.sublist (List.Sublist.map Prod.fst (List.filter_sublist _))
      · intro p hp
        show p.1 < h.next
        exact h2 p (List.mem_of_mem_filter hp)

lemma cancel_idem (h : EventHub) (id : Nat) :
    Cancel (Cancel h id) id = Cancel h id := by
  show ({ h with subs := (h.subs.filter _).filter _ } : EventHub) = _
  rw [List.filter_filter]
  simp only [Bool.and_self]
  rfl

/-- C10: across any sequence of Subscribe and cancel operations on a
fresh hub, the ids returned by Subscribe are strictly increasing — ids
are never reused even after a cancellation removes a subscription — so
registered subscriptions always carry pairwise distinct ids, each with
its own mailbox entry, and cancelling an already-cancelled id is a
no-op. -/
theorem subscription_ids_fresh :
    (∀ ops : List HubOp, List.Pairwise (· < ·) (returnedIds NewHub ops))
    ∧ (∀ ops : List HubOp, ((runOps ops).subs.map Prod.fst).Nodup)
    ∧ (∀ (h : EventHub) (id : Nat), Cancel (Cancel h id) id = Cancel h id) :=
  ⟨fun ops => returnedIds_sorted ops NewHub,
   fun ops => (hub_invariant ops NewHub (by simp [NewHub]) (by simp [NewHub])).1,
   cancel_idem⟩
